import Mathlib

/-!
Verification development for the fx-ssg static-site generator.

The repository contains three variants of the build script and one image
optimizer module:
* `Doc1`   — the first build script in `src/index.js` (require-based, a single
             `src/pages` directory holding both pages and fragments);
* `Doc2`   — the second build script in `src/index.js` (import-based, separate
             `src/fragments` directory, versioned fragment store `FX_VERSION`,
             minified edge worker);
* `Part000`— the build script in `src/unnamed/part_000` (require-based, separate
             fragment directory, route-collision warning);
* the image optimizer `processImages` from `src/unnamed/part_001`, shared by
  all three.

Strings are modelled as `List Char`.  External collaborators are parameters:
the filesystem is a predicate `e : Chars → Bool` (`fs.existsSync`), the
html-minifier-terser `minify` is an arbitrary function `m : Chars → Chars`,
the sha1-based `hash` of Doc2 is an arbitrary function `Chars → Chars`, and a
layout module is a function from the metadata record (an association list) to
the full document string.  Raster output of `sharp` is modelled as the list of
derived-file records the optimizer decides to write.
-/

set_option maxRecDepth 1000000

abbrev Chars := List Char

def str (s : String) : Chars := s.data

/-- JS whitespace characters relevant to the sources (subset of `\s`/`trim`). -/
def wsCh (c : Char) : Bool :=
  c == ' ' || c == Char.ofNat 9 || c == Char.ofNat 10 || c == Char.ofNat 13 ||
  c == Char.ofNat 12 || c == Char.ofNat 11

/-- The two JS quote characters `"` and the single quote, as in `["']`. -/
def quoteCh (c : Char) : Bool := c == Char.ofNat 34 || c == Char.ofNat 39

/-- A `\w` word character: letter, digit or underscore (ASCII). -/
def wordCh (c : Char) : Bool := c.isAlphanum || c == '_'

/-- JS `String.prototype.trim` (over the modelled whitespace set). -/
def trim (s : Chars) : Chars := ((s.dropWhile wsCh).reverse.dropWhile wsCh).reverse

/-- Split at the first occurrence of `sep`: returns the part strictly before it
and the part strictly after it, or `none` when `sep` does not occur. -/
def splitFirstSub (sep : Chars) : Chars → Option (Chars × Chars)
  | [] => none
  | c :: cs =>
    if sep.isPrefixOf (c :: cs) then some ([], (c :: cs).drop sep.length)
    else (splitFirstSub sep cs).map (fun pq => (c :: pq.1, pq.2))

/-- JS `String.prototype.includes`. -/
def containsSub (pat s : Chars) : Bool := (splitFirstSub pat s).isSome

/-- The segment of `t` before the next occurrence of `sep` (all of `t` when
`sep` does not occur): this is how `split(sep)[1]` relates to the text after
the first separator. -/
def untilNext (sep t : Chars) : Chars :=
  match splitFirstSub sep t with
  | none => t
  | some pq => pq.1

/-- JS `String.prototype.replace` with a plain string pattern: replaces the
first occurrence only (the sources never use `$`-patterns in the replacement). -/
def replaceFirst (s pat rep : Chars) : Chars :=
  match splitFirstSub pat s with
  | none => s
  | some pq => pq.1 ++ rep ++ pq.2

/-- JS `String.prototype.split` with a nonempty string separator. -/
def jsSplitAux (sep : Chars) : Nat → Chars → List Chars
  | 0, s => [s]
  | fuel+1, s =>
    match splitFirstSub sep s with
    | none => [s]
    | some pq => pq.1 :: jsSplitAux sep fuel pq.2

def jsSplit (sep s : Chars) : List Chars := jsSplitAux sep s.length s

/-- Global replacement of every maximal whitespace run by a single blank,
JS `.replace(/\s+/g, " ")`. -/
def collapseWsAux : Nat → Chars → Chars
  | 0, _ => []
  | _, [] => []
  | fuel+1, c :: cs =>
    if wsCh c then ' ' :: collapseWsAux fuel (cs.dropWhile wsCh)
    else c :: collapseWsAux fuel cs

def collapseWs (s : Chars) : Chars := collapseWsAux s.length s

/-- JS `Array.prototype.join`. -/
def joinSep (sep : Chars) : List Chars → Chars
  | [] => []
  | [x] => x
  | x :: y :: t => x ++ sep ++ joinSep sep (y :: t)

/-- Decimal digits of a natural number (for template interpolation of widths). -/
def natChars (n : Nat) : Chars := Nat.toDigits 10 n

/-- JS `parseInt` restricted to the shapes the sources feed it: optional
leading whitespace then a run of decimal digits; `none` models `NaN`. -/
def parseIntJS (s : Chars) : Option Nat :=
  let t := s.dropWhile wsCh
  let ds := t.takeWhile Char.isDigit
  if ds = [] then none
  else some (ds.foldl (fun n c => n * 10 + (c.toNat - 48)) 0)

/-- Rendering of a JS number in a template literal (`none` prints `NaN`). -/
def renderNum : Option Nat → Chars
  | some n => natChars n
  | none => str "NaN"

/-- JS object property read (keys in our object models are unique). -/
def objGet {α : Type} : List (Chars × α) → Chars → Option α
  | [], _ => none
  | kv :: t, k => if kv.1 == k then some kv.2 else objGet t k

/-- JS object property write: updates an existing key in place, otherwise
appends (insertion order is preserved, as for JS objects). -/
def objSet {α : Type} (o : List (Chars × α)) (k : Chars) (v : α) : List (Chars × α) :=
  if o.any (fun kv => kv.1 == k) then o.map (fun kv => if kv.1 == k then (k, v) else kv)
  else o ++ [(k, v)]

/-- Value of the last write to key `k` in a write log. -/
def lookupLast {α : Type} (o : List (Chars × α)) (k : Chars) : Option α :=
  ((o.filter (fun kv => kv.1 == k)).getLast?).map Prod.snd

/-- JS `String.prototype.indexOf(pat, start)` (absolute index, `pat` nonempty). -/
def indexOfAux (pat : Chars) : Chars → Nat → Option Nat
  | [], _ => none
  | c :: cs, i => if pat.isPrefixOf (c :: cs) then some i else indexOfAux pat cs (i + 1)

def indexOfFrom (s pat : Chars) (start : Nat) : Option Nat :=
  indexOfAux pat (s.drop start) start

/-- `pat` occurs in `u` starting at index `i`. -/
def isPrefixAt (pat u : Chars) (i : Nat) : Prop := pat.isPrefixOf (u.drop i) = true

/- ---------- Node `path` helpers (POSIX, as used by the sources) ---------- -/

def lastSlash (p : Chars) : Option Nat :=
  ((List.range p.length).filter (fun i => p.get? i == some '/')).getLast?

def dirname (p : Chars) : Chars :=
  match lastSlash p with
  | none => str "."
  | some 0 => str "/"
  | some i => p.take i

def basenameExt (p ext : Chars) : Chars :=
  let b := match lastSlash p with | none => p | some i => p.drop (i + 1)
  if ext ≠ [] ∧ ext.isSuffixOf b then b.take (b.length - ext.length) else b

def extname (p : Chars) : Chars :=
  let b := match lastSlash p with | none => p | some i => p.drop (i + 1)
  match ((List.range b.length).filter (fun i => b.get? i == some '.')).getLast? with
  | none => []
  | some 0 => []
  | some i => b.drop i

/-- `path.join` of clean segments (no normalization is needed by the inputs
the sources build: absolute roots joined with relative sub-paths). -/
def pathJoin (a b : Chars) : Chars := a ++ str "/" ++ b

/- ------------------------------------------------------------------------
   Image optimizer, `src/unnamed/part_001`.

   The marker regex is
     `/<img\s+([^>]*?)src=["']([^"']+)["']([^>]*?)data-opt(?:=["']([^"']*)["'])?([^>]*?)>/g`
   and is modelled by an explicit backtracking matcher with exactly the JS
   preference order: `\s+` greedy, the two `[^>]*?` groups lazy, `[^"']+`
   greedy (deterministic, stops at the next quote), the optional value group
   tried with-value first.
   ------------------------------------------------------------------------ -/

def DEFAULT_SIZES : List Nat := [480, 800, 1200]

def QUALITY : Nat := 80

structure ImgMatch where
  beforeSrc : Chars
  srcPath : Chars
  between : Chars
  optValue : Option Chars
  afterOpt : Chars
deriving Repr, DecidableEq

/-- Tail of the pattern: `([^>]*?)>` — the lazy group runs to the first `>`. -/
def matchTail (v : Option Chars) (s : Chars) : Option (Option Chars × Chars × Chars) :=
  let c := s.takeWhile (fun ch => ch != '>')
  if c.length = s.length then none
  else some (v, c, s.drop (c.length + 1))

/-- The optional group `(?:=["']([^"']*)["'])?`: equals sign, a quote, a
greedy run of non-quote characters, a quote. -/
def tryOptGroup (s : Chars) : Option (Chars × Chars) :=
  match s with
  | c1 :: rest1 =>
    if c1 == '=' then
      match rest1 with
      | q :: rest2 =>
        if quoteCh q then
          let v := rest2.takeWhile (fun ch => !quoteCh ch)
          match rest2.drop v.length with
          | q2 :: rest3 => if quoteCh q2 then some (v, rest3) else none
          | [] => none
        else none
      | [] => none
    else none
  | [] => none

/-- After the literal `data-opt`: try the value group first, fall back to the
empty alternative when the rest of the pattern fails. -/
def afterData (s : Chars) : Option (Option Chars × Chars × Chars) :=
  match tryOptGroup s with
  | some vr => (matchTail (some vr.1) vr.2).orElse (fun _ => matchTail none s)
  | none => matchTail none s

/-- The lazy group `([^>]*?)` before the literal `data-opt`, shortest first. -/
def matchFromB (s7 : Chars) : Option (Chars × Option Chars × Chars × Chars) :=
  (List.range (s7.length + 1)).findSome? (fun b =>
    let btw := s7.take b
    if btw.all (fun ch => ch != '>') && (str "data-opt").isPrefixOf (s7.drop b) then
      (afterData (s7.drop (b + 8))).map (fun vcr => (btw, vcr.1, vcr.2.1, vcr.2.2))
    else none)

/-- `["']([^"']+)["']` after `src=`. -/
def matchSrcVal (s4 : Chars) : Option (Chars × Chars) :=
  match s4 with
  | q :: s5 =>
    if quoteCh q then
      let sp := s5.takeWhile (fun ch => !quoteCh ch)
      if sp.length = 0 then none
      else
        match s5.drop sp.length with
        | q2 :: s7 => if quoteCh q2 then some (sp, s7) else none
        | [] => none
    else none
  | [] => none

/-- The lazy group `([^>]*?)` before `src=`, shortest first. -/
def matchAfterWs (s2 : Chars) : Option (ImgMatch × Chars) :=
  (List.range (s2.length + 1)).findSome? (fun a =>
    let bs := s2.take a
    if bs.all (fun ch => ch != '>') && (str "src=").isPrefixOf (s2.drop a) then
      match matchSrcVal (s2.drop (a + 4)) with
      | none => none
      | some sps =>
        (matchFromB sps.2).map (fun bvcr =>
          (⟨bs, sps.1, bvcr.1, bvcr.2.1, bvcr.2.2.1⟩, bvcr.2.2.2))
    else none)

/-- Attempt the whole pattern at the head of `s`; on success returns the
captured groups and the remainder after the matched tag. -/
def matchAt (s : Chars) : Option (ImgMatch × Chars) :=
  if (str "<img").isPrefixOf s then
    let s1 := s.drop 4
    let wsMax := (s1.takeWhile wsCh).length
    ((List.range wsMax).map (fun i => wsMax - i)).findSome? (fun k =>
      matchAfterWs (s1.drop k))
  else none

/-- `matchAll`: scan left to right, restart after the end of each match. -/
def findAllAux : Nat → Chars → List (Chars × ImgMatch)
  | 0, _ => []
  | _, [] => []
  | fuel+1, s =>
    match matchAt s with
    | some mr => (s.take (s.length - mr.2.length), mr.1) :: findAllAux fuel mr.2
    | none =>
      match s with
      | [] => []
      | _ :: cs => findAllAux fuel cs

def findAll (s : Chars) : List (Chars × ImgMatch) := findAllAux s.length s

/-- One explicit size token `width` or `widthxheight`.  `w` is the `parseInt`
of the first `x`-part (`none` = `NaN`); `h` models
`parts[1] ? parseInt(parts[1]) : null`, with `none` covering both `null`
(absent or empty second part) and `NaN` (non-numeric second part) — the two
are indistinguishable downstream, where the height is used only under a JS
truthiness test that `null`, `NaN` and `0` all fail. -/
structure JsSize where
  w : Option Nat
  h : Option Nat
deriving Repr, DecidableEq

def parseSizes (ov : Chars) : List JsSize :=
  (jsSplit (str ",") ov).map (fun s =>
    let px := jsSplit (str "x") (trim s)
    { w := parseIntJS (px.headD []),
      h := match px.get? 1 with
           | some t => if t = [] then none else parseIntJS t
           | none => none })

/-- A variant file the optimizer writes: output path, requested width and
height (`cover` center-crop exactly when a height is present, aspect-preserving
resize otherwise), webp at the fixed quality. -/
structure Derived where
  outPath : Chars
  width : Option Nat
  height : Option Nat
  cover : Bool
deriving Repr, DecidableEq

structure TagResult where
  origTag : Chars
  newTag : Chars
  files : List Derived
  warns : List Chars
deriving Repr, DecidableEq

def dq : Chars := [Char.ofNat 34]

/-- Processing of a single matched element (the body of the `matches.map`
callback in `processImages`). -/
def processMatch (e : Chars → Bool) (cwd : Chars) (tm : Chars × ImgMatch) : TagResult :=
  let orig := tm.1
  let m := tm.2
  let cleanPath := match m.srcPath with
                   | c :: cs => if c == '/' then cs else m.srcPath
                   | [] => []
  let localFile := pathJoin (pathJoin cwd (str "src")) cleanPath
  if e localFile then
    let sizes : List JsSize :=
      match m.optValue with
      | some v => if v = [] then DEFAULT_SIZES.map (fun w => ⟨some w, none⟩)
                  else parseSizes v
      | none => DEFAULT_SIZES.map (fun w => ⟨some w, none⟩)
    let ext := extname localFile
    let fileName := replaceFirst (basenameExt localFile ext) (str ".raw") []
    let dn := dirname m.srcPath
    let fsDirName := dirname cleanPath
    let parts := sizes.map (fun sz =>
      let hTruthy : Bool := match sz.h with | some n => n != 0 | none => false
      let suffix := if hTruthy then renderNum sz.w ++ str "x" ++ renderNum sz.h
                    else renderNum sz.w
      let outFileName := fileName ++ str "-" ++ suffix ++ str ".webp"
      let outPath := pathJoin (pathJoin (pathJoin cwd (str "public")) fsDirName) outFileName
      let written : List Derived :=
        if e outPath then []
        else [⟨outPath, sz.w, if hTruthy then sz.h else none, hTruthy⟩]
      (written, dn ++ str "/" ++ outFileName ++ str " " ++ renderNum sz.w ++ str "w"))
    let srcset := joinSep (str ", ") (parts.map Prod.snd)
    let newTag := collapseWs (str "<img " ++ m.beforeSrc ++ str " src=" ++ dq ++ m.srcPath
      ++ dq ++ str " srcset=" ++ dq ++ srcset ++ dq ++ str " " ++ m.between
      ++ str " " ++ m.afterOpt ++ str ">")
    ⟨orig, newTag, parts.flatMap Prod.fst, []⟩
  else
    ⟨orig, orig, [], [localFile]⟩

structure PIResult where
  html : Chars
  files : List Derived
  warns : List Chars
deriving Repr, DecidableEq

/-- `processImages(html, cwd)`: find all marked elements, process each, then
replace each original tag text by its rewritten text (first occurrence). -/
def processImages (e : Chars → Bool) (cwd : Chars) (html : Chars) : PIResult :=
  let ms := findAll html
  if ms.isEmpty then ⟨html, [], []⟩
  else
    let results := ms.map (processMatch e cwd)
    ⟨results.foldl (fun h r => replaceFirst h r.origTag r.newTag) html,
     results.flatMap (fun r => r.files),
     results.flatMap (fun r => r.warns)⟩

/- ------------------------------------------------------------------------
   Shared content parsing (`parseMetadata` appears verbatim in the first
   `src/index.js` script and in `part_000`; the second `src/index.js` script
   uses the same regex in a `replace` callback with identical effect).
   The regex is `/<(\w+)>([\s\S]*?)<\/\1>/g`.
   ------------------------------------------------------------------------ -/

def scanMetaAux : Nat → Chars → List (Chars × Chars)
  | 0, _ => []
  | _, [] => []
  | fuel+1, c :: cs =>
    if c == '<' then
      let nm := cs.takeWhile wordCh
      if nm.length = 0 then scanMetaAux fuel cs
      else
        match cs.drop nm.length with
        | g :: rest =>
          if g == '>' then
            match splitFirstSub (str "</" ++ nm ++ str ">") rest with
            | some cr => (nm, cr.1) :: scanMetaAux fuel cr.2
            | none => scanMetaAux fuel cs
          else scanMetaAux fuel cs
        | [] => scanMetaAux fuel cs
    else scanMetaAux fuel cs

/-- All `<name>value</name>` matches of the metadata regex, in scan order. -/
def scanMeta (s : Chars) : List (Chars × Chars) := scanMetaAux s.length s

/-- `parseMetadata`: fold the matches into an object, trimming each captured
value; a duplicate tag name overwrites the earlier value. -/
def parseMetadata (hdr : Chars) : List (Chars × Chars) :=
  (scanMeta hdr).foldl (fun md kv => objSet md kv.1 (trim kv.2)) []

/-- Value of the last metadata match for tag name `k`, trimmed; `none` when no
match carries that name.  This is the claim-side reading of
"last occurrence wins". -/
def lastTrimmed (l : List (Chars × Chars)) (k : Chars) : Option Chars :=
  match l with
  | [] => none
  | kv :: t =>
    match lastTrimmed t k with
    | some v => some v
    | none => if kv.1 = k then some (trim kv.2) else none

/-- `metadata.layout || "base"` (JS truthiness: a missing or empty layout
name falls back to `base`). -/
def layoutNameOf (meta : List (Chars × Chars)) : Chars :=
  match objGet meta (str "layout") with
  | some v => if v = [] then str "base" else v
  | none => str "base"

abbrev LayoutMap := List (Chars × (List (Chars × Chars) → Chars))

def fxDelim : Chars := str "------"

def hasFxExt (n : Chars) : Bool := (str ".fx").isSuffixOf n

/-- `rawFile.split("------")`, keeping what the build scripts use of it:
`parts[0]` (the header) and `parts[1]` (the text between the first delimiter
occurrence and the next one, or the rest when the delimiter occurs once).
`none` when the file does not contain the delimiter. -/
def splitDoc (raw : Chars) : Option (Chars × Chars) :=
  (splitFirstSub fxDelim raw).map (fun ht => (ht.1, untilNext fxDelim ht.2))

/- ------------------------------------------------------------------------
   Doc1: first build script in `src/index.js`.
   ------------------------------------------------------------------------ -/

namespace Doc1

structure FileOut where
  edge : List (Chars × Chars)
  disk : List (Chars × Chars)
  errs : List Chars
deriving Repr, DecidableEq

/-- Processing of one `.fx` file from `src/pages` (loop body of `build`). -/
def processFile (e : Chars → Bool) (m : Chars → Chars) (cwd : Chars)
    (L : LayoutMap) (file : Chars × Chars) : FileOut :=
  let slug := replaceFirst file.1 (str ".fx") []
  let edgeKey := if slug = str "home" ∨ slug = str "index" then str "/" else str "/" ++ slug
  match splitDoc file.2 with
  | some ht =>
    let body := trim ht.2
    let c1 := (processImages e cwd body).html
    let edgeV := m c1
    let meta2 := objSet (parseMetadata ht.1) (str "content") c1
    let ln := layoutNameOf meta2
    match objGet L ln with
    | none => ⟨[(edgeKey, edgeV)], [], [str "Layout missing: " ++ ln]⟩
    | some f =>
      let full := f meta2
      let final := m (processImages e cwd full).html
      let out := if slug = str "home" ∨ slug = str "index" then str "index.html"
                 else slug ++ str ".html"
      ⟨[(edgeKey, edgeV)], [(out, final)], []⟩
  | none =>
    let c := (processImages e cwd (trim file.2)).html
    ⟨[(edgeKey, m c)], [], []⟩

structure BuildOut where
  edge : List (Chars × Chars)
  disk : List (Chars × Chars)
  errs : List Chars
deriving Repr, DecidableEq

/-- One iteration of the `build` loop: merge the outputs of one file into the
accumulated state (edge entries through JS object writes). -/
def step (e : Chars → Bool) (m : Chars → Chars) (cwd : Chars) (L : LayoutMap)
    (acc : BuildOut) (f : Chars × Chars) : BuildOut :=
  let r := processFile e m cwd L f
  { edge := r.edge.foldl (fun st kv => objSet st kv.1 kv.2) acc.edge,
    disk := acc.disk ++ r.disk,
    errs := acc.errs ++ r.errs }

/-- The whole `build` loop over the directory listing of `src/pages`. -/
def build (e : Chars → Bool) (m : Chars → Chars) (cwd : Chars)
    (L : LayoutMap) (files : List (Chars × Chars)) : BuildOut :=
  (files.filter (fun f => hasFxExt f.1)).foldl (step e m cwd L) ⟨[], [], []⟩

end Doc1

/- ------------------------------------------------------------------------
   Part000: build script in `src/unnamed/part_000`.
   ------------------------------------------------------------------------ -/

namespace Part000

structure PageOut where
  edge : List (Chars × Chars)
  disk : List (Chars × Chars)
  errs : List Chars
  sepWarns : List Chars
deriving Repr, DecidableEq

/-- Processing of one `.fx` file from `src/pages`: a delimiter-free file is
warned about but still flows through layout application. -/
def processPage (e : Chars → Bool) (m : Chars → Chars) (cwd : Chars)
    (L : LayoutMap) (file : Chars × Chars) : PageOut :=
  let slug := replaceFirst file.1 (str ".fx") []
  let edgeKey := if slug = str "home" ∨ slug = str "index" then str "/" else str "/" ++ slug
  let hbw : Chars × Chars × List Chars :=
    match splitDoc file.2 with
    | some ht => (ht.1, trim ht.2, [])
    | none => ([], trim file.2, [str "missing separator: " ++ file.1])
  let c1 := (processImages e cwd hbw.2.1).html
  let edgeV := m c1
  let meta2 := objSet (parseMetadata hbw.1) (str "body") c1
  let ln := layoutNameOf meta2
  match objGet L ln with
  | none => ⟨[(edgeKey, edgeV)], [], [str "Layout missing: " ++ ln], hbw.2.2⟩
  | some f =>
    let full := f meta2
    let final := m (processImages e cwd full).html
    let out := if slug = str "home" ∨ slug = str "index" then str "index.html"
               else slug ++ str ".html"
    ⟨[(edgeKey, edgeV)], [(out, final)], [], hbw.2.2⟩

def collisionMsg (slug : Chars) : Chars :=
  str "Collision: Fragment /" ++ slug ++ str " overwrites Page /" ++ slug ++ str " in Edge Store"

structure BuildOut where
  edge : List (Chars × Chars)
  disk : List (Chars × Chars)
  errs : List Chars
  warns : List Chars
  sepWarns : List Chars
deriving Repr, DecidableEq

/-- The whole build: the pages loop, then the fragments loop with its
collision check (`if (edgeStore[edgeKey])` — JS truthiness, so only a
non-empty existing entry is warned about) and last-write-wins insertion. -/
def build (e : Chars → Bool) (m : Chars → Chars) (cwd : Chars) (L : LayoutMap)
    (pages frags : List (Chars × Chars)) : BuildOut :=
  let s1 := (pages.filter (fun f => hasFxExt f.1)).foldl (fun acc f =>
    let r := processPage e m cwd L f
    { edge := r.edge.foldl (fun st kv => objSet st kv.1 kv.2) acc.edge,
      disk := acc.disk ++ r.disk,
      errs := acc.errs ++ r.errs,
      warns := acc.warns,
      sepWarns := acc.sepWarns ++ r.sepWarns }) ⟨[], [], [], [], []⟩
  (frags.filter (fun f => hasFxExt f.1)).foldl (fun acc f =>
    let slug := replaceFirst f.1 (str ".fx") []
    let key := str "/" ++ slug
    let w : List Chars :=
      match objGet acc.edge key with
      | some v => if v = [] then [] else [collisionMsg slug]
      | none => []
    let c := (processImages e cwd (trim f.2)).html
    { edge := objSet acc.edge key (m c),
      disk := acc.disk,
      errs := acc.errs,
      warns := acc.warns ++ w,
      sepWarns := acc.sepWarns }) s1

end Part000

/- ------------------------------------------------------------------------
   Doc2: second build script in `src/index.js` (versioned fragment store).
   ------------------------------------------------------------------------ -/

namespace Doc2

def fxFiles (files : List (Chars × Chars)) : List (Chars × Chars) :=
  files.filter (fun f => hasFxExt f.1)

/-- The per-fragment pipeline: trim, optimize images, minify. -/
def fragHtml (e : Chars → Bool) (m : Chars → Chars) (cwd content : Chars) : Chars :=
  m (processImages e cwd (trim content)).html

/-- First fragment loop: concatenation of all minified fragment payloads in
directory-listing order. -/
def fragmentPayload (e : Chars → Bool) (m : Chars → Chars) (cwd : Chars)
    (files : List (Chars × Chars)) : Chars :=
  ((fxFiles files).map (fun f => fragHtml e m cwd f.2)).foldl (fun a b => a ++ b) []

/-- `const FX_VERSION = hash(fragmentPayload || "fx")`. -/
def FX_VERSION (hash : Chars → Chars) (e : Chars → Bool) (m : Chars → Chars)
    (cwd : Chars) (files : List (Chars × Chars)) : Chars :=
  hash (if fragmentPayload e m cwd files = [] then str "fx" else fragmentPayload e m cwd files)

def fragKey (hash : Chars → Chars) (e : Chars → Bool) (m : Chars → Chars)
    (cwd : Chars) (files : List (Chars × Chars)) (name : Chars) : Chars :=
  str "/__fx/v" ++ FX_VERSION hash e m cwd files ++ str "/" ++ replaceFirst name (str ".fx") []

/-- Second fragment loop: re-run the pipeline per file and insert under the
versioned route key. -/
def fragmentStore (hash : Chars → Chars) (e : Chars → Bool) (m : Chars → Chars)
    (cwd : Chars) (files : List (Chars × Chars)) : List (Chars × Chars) :=
  (fxFiles files).foldl (fun st f =>
    objSet st (fragKey hash e m cwd files f.1) (fragHtml e m cwd f.2)) []

/-- One page of the pages loop.  The script calls `await import(...)` on the
layout path with no existence check, so a missing layout rejects the import
and aborts the whole build: this is modelled by `Except.error`. -/
def processPage (e : Chars → Bool) (m : Chars → Chars) (cwd : Chars)
    (L : LayoutMap) (V : Chars) (file : Chars × Chars) : Except Chars (Chars × Chars) :=
  let name := replaceFirst file.1 (str ".fx") []
  let hb : Chars × Chars :=
    match splitDoc file.2 with
    | some ht => ht
    | none => ([], file.2)
  let meta := parseMetadata hb.1
  let html := (processImages e cwd (trim hb.2)).html
  let ln := layoutNameOf meta
  match objGet L ln with
  | none => Except.error (str "Cannot find layout module " ++ ln)
  | some f =>
    let page := f (objSet (objSet meta (str "body") html) (str "fxVersion") V)
    let final := m (processImages e cwd page).html
    let out := if name = str "index" ∨ name = str "home" then str "index.html"
               else name ++ str ".html"
    Except.ok (out, final)

/-- The pages loop: a page-level failure propagates (no catch in the script). -/
def pagesBuild (e : Chars → Bool) (m : Chars → Chars) (cwd : Chars)
    (L : LayoutMap) (V : Chars) (files : List (Chars × Chars)) :
    Except Chars (List (Chars × Chars)) :=
  (fxFiles files).foldl (fun acc f =>
    acc.bind (fun ws => (processPage e m cwd L V f).map (fun w => ws ++ [w])))
    (Except.ok [])

/- The emitted edge worker:
   `i=u.indexOf("/__fx/",8); if(i>-1){h=P[u.slice(i)]; if(h!==void 0) respond(h)}; fetch(r)` -/

def edgeContentType : Chars := str "text/html;charset=utf-8"

def edgeCacheControl : Chars := str "public,max-age=31536000,immutable"

structure EdgeResp where
  body : Chars
  contentType : Chars
  cacheControl : Chars
deriving Repr, DecidableEq

/-- The dispatch decision of the emitted worker for a request with full URL
`u` and serialized fragment map `P`: `some` is a synthesized response, `none`
is the pass-through `fetch` to origin. -/
def edgeRespond (P : List (Chars × Chars)) (u : Chars) : Option EdgeResp :=
  match indexOfFrom u (str "/__fx/") 8 with
  | none => none
  | some i =>
    match objGet P (u.drop i) with
    | none => none
    | some h => some ⟨h, edgeContentType, edgeCacheControl⟩

end Doc2

/- ------------------------------------------------------------------------
   General lemmas about the helpers, used by the claim theorems.
   ------------------------------------------------------------------------ -/

lemma splitFirstSub_eq {sep : Chars} (hne : sep ≠ []) :
    ∀ {s p q : Chars}, splitFirstSub sep s = some (p, q) →
      s = p ++ sep ++ q ∧ splitFirstSub sep p = none := by
  intro s
  induction s with
  | nil => intro p q h; simp [splitFirstSub] at h
  | cons c cs ih =>
    intro p q h
    rw [splitFirstSub] at h
    by_cases hpre : sep.isPrefixOf (c :: cs) = true
    · rw [if_pos hpre] at h
      obtain ⟨t, ht⟩ := (List.isPrefixOf_iff_prefix.mp hpre)
      injection h with h'
      injection h' with h1 h2
      subst h1
      constructor
      · rw [← ht, ← h2, ← ht, List.drop_left]; simp
      · cases sep with
        | nil => exact absurd rfl hne
        | cons a b => rfl
    · rw [if_neg hpre] at h
      obtain ⟨pq, hpq, heq⟩ := Option.map_eq_some'.mp h
      obtain ⟨p', q'⟩ := pq
      obtain ⟨hs, hnone⟩ := ih hpq
      have hp : p = c :: p' := by
        have := congrArg Prod.fst heq; simpa using this.symm
      have hq : q = q' := by
        have := congrArg Prod.snd heq; simpa using this.symm
      subst hp; subst hq
      constructor
      · simp [hs]
      · rw [splitFirstSub]
        have hnp : sep.isPrefixOf (c :: p') = false := by
          by_contra hcon
          have hT : sep.isPrefixOf (c :: p') = true := by
            revert hcon; cases sep.isPrefixOf (c :: p') <;> simp
          have hpref : sep <+: (c :: p') := List.isPrefixOf_iff_prefix.mp hT
          have h3 : sep <+: (c :: p') ++ (sep ++ q) := hpref.trans (List.prefix_append _ _)
          have h4 : sep <+: (c :: cs) := by
            rw [hs]; simpa [List.append_assoc] using h3
          exact hpre (List.isPrefixOf_iff_prefix.mpr h4)
        rw [if_neg (by simp [hnp])]
        rw [hnone]
        rfl

lemma objGet_map_update_ne {α : Type} {k1 k : Chars} (v : α) (hne : k1 ≠ k) :
    ∀ (o : List (Chars × α)),
      objGet (o.map (fun kv => if kv.1 == k1 then (k1, v) else kv)) k = objGet o k := by
  intro o
  induction o with
  | nil => rfl
  | cons kv t ih =>
    simp only [beq_iff_eq] at ih
    by_cases h1 : kv.1 = k1
    · simp [objGet, h1, hne, Ne.symm hne, ih]
    · by_cases h2 : kv.1 = k
      · simp [objGet, h1, h2, Ne.symm hne]
      · simp [objGet, h1, h2, ih]

lemma objGet_map_update_mem {α : Type} {k1 : Chars} (v : α) :
    ∀ (o : List (Chars × α)), o.any (fun kv => kv.1 == k1) = true →
      objGet (o.map (fun kv => if kv.1 == k1 then (k1, v) else kv)) k1 = some v := by
  intro o
  induction o with
  | nil => intro h; simp at h
  | cons kv t ih =>
    intro h
    simp only [beq_iff_eq] at ih
    by_cases h1 : kv.1 = k1
    · simp [objGet, h1]
    · have h' : (t.any fun kv => kv.1 == k1) = true := by
        have h0 := h
        simp only [List.any_cons] at h0
        rcases Bool.or_eq_true_iff.mp h0 with hc | hc
        · exact absurd (by simpa using hc) h1
        · exact hc
      simp only [beq_iff_eq] at h'
      simp [objGet, h1, ih h']

lemma objGet_append {α : Type} (o r : List (Chars × α)) (k : Chars) :
    objGet (o ++ r) k = ((objGet o k).orElse (fun _ => objGet r k)) := by
  induction o with
  | nil => simp [objGet, Option.orElse]
  | cons kv t ih =>
    by_cases h : kv.1 = k
    · simp [objGet, h, Option.orElse]
    · simp [objGet, h, ih]

lemma objGet_none_of_not_any {α : Type} {k : Chars} :
    ∀ {o : List (Chars × α)}, o.any (fun kv => kv.1 == k) = false → objGet o k = none := by
  intro o
  induction o with
  | nil => intro _; rfl
  | cons kv t ih =>
    intro h
    simp only [List.any_cons, Bool.or_eq_false_iff] at h
    have h1 : kv.1 ≠ k := by simpa using h.1
    simp [objGet, h1, ih h.2]

/-- JS object write/read law: reading key `k` after setting key `k1` gives the
new value when the keys agree and is otherwise unaffected. -/
lemma objGet_objSet {α : Type} (o : List (Chars × α)) (k1 : Chars) (v : α) (k : Chars) :
    objGet (objSet o k1 v) k = if k1 = k then some v else objGet o k := by
  unfold objSet
  by_cases hany : o.any (fun kv => kv.1 == k1) = true
  · rw [if_pos hany]
    by_cases hk : k1 = k
    · subst hk
      rw [if_pos rfl]
      exact objGet_map_update_mem v o hany
    · rw [if_neg hk]
      exact objGet_map_update_ne v hk o
  · rw [if_neg hany]
    rw [objGet_append]
    by_cases hk : k1 = k
    · subst hk
      have : objGet o k1 = none :=
        objGet_none_of_not_any (by revert hany; cases o.any (fun kv => kv.1 == k1) <;> simp)
      simp [this, objGet, Option.orElse]
    · have : objGet [(k1, v)] k = none := by simp [objGet, hk]
      rw [this]
      rw [if_neg hk]
      cases hx : objGet o k <;> simp [Option.orElse]

/-- Membership in an object after a write: every binding either was already
present or carries the written key. -/
lemma mem_objSet {α : Type} {kv : Chars × α} {o : List (Chars × α)} {k : Chars} {v : α}
    (h : kv ∈ objSet o k v) : kv ∈ o ∨ kv.1 = k := by
  unfold objSet at h
  by_cases hany : o.any (fun p => p.1 == k) = true
  · rw [if_pos hany] at h
    obtain ⟨p, hp, hmap⟩ := List.mem_map.mp h
    by_cases h1 : p.1 = k
    · simp only [h1, beq_self_eq_true, if_true] at hmap
      right; rw [← hmap]
    · simp only [beq_iff_eq, h1, if_false] at hmap
      left; rw [← hmap]; exact hp
  · rw [if_neg hany] at h
    rcases List.mem_append.mp h with h' | h'
    · left; exact h'
    · right
      have : kv = (k, v) := by simpa using h'
      rw [this]

lemma foldl_objSet_mem {α β : Type} (key : β → Chars) (val : β → α) :
    ∀ (l : List β) (st : List (Chars × α)) (kv : Chars × α),
      kv ∈ l.foldl (fun st f => objSet st (key f) (val f)) st →
      kv ∈ st ∨ ∃ f, f ∈ l ∧ kv.1 = key f := by
  intro l
  induction l with
  | nil => intro st kv h; left; exact h
  | cons f t ih =>
    intro st kv h
    rcases ih (objSet st (key f) (val f)) kv h with h' | ⟨f', hf', hk⟩
    · rcases mem_objSet h' with h'' | h''
      · left; exact h''
      · right; exact ⟨f, List.mem_cons_self f t, h''⟩
    · right; exact ⟨f', List.mem_cons_of_mem f hf', hk⟩

lemma objGet_foldl_trim (k : Chars) :
    ∀ (l : List (Chars × Chars)) (m0 : List (Chars × Chars)),
      objGet (l.foldl (fun md kv => objSet md kv.1 (trim kv.2)) m0) k
      = match lastTrimmed l k with
        | some v => some v
        | none => objGet m0 k := by
  intro l
  induction l with
  | nil => intro m0; rfl
  | cons kv t ih =>
    intro m0
    simp only [List.foldl, lastTrimmed]
    rw [ih]
    cases hlt : lastTrimmed t k with
    | some v => rfl
    | none =>
      simp only []
      rw [objGet_objSet]
      by_cases hk : kv.1 = k
      · rw [if_pos hk, if_pos hk]
      · rw [if_neg hk, if_neg hk]

/-- `parseMetadata` realizes last-duplicate-wins over the regex matches. -/
lemma parseMetadata_lastWins (hdr k : Chars) :
    objGet (parseMetadata hdr) k = lastTrimmed (scanMeta hdr) k := by
  unfold parseMetadata
  rw [objGet_foldl_trim]
  cases h : lastTrimmed (scanMeta hdr) k <;> rfl

/-- On `some j`, `indexOfAux` returns the least index `≥ i` at which `pat`
occurs (JS `indexOf` semantics). -/
lemma indexOfAux_some {pat : Chars} :
    ∀ {s : Chars} {i j : Nat}, indexOfAux pat s i = some j →
      i ≤ j ∧ pat.isPrefixOf (s.drop (j - i)) = true ∧
      ∀ k, i ≤ k → k < j → pat.isPrefixOf (s.drop (k - i)) = false := by
  intro s
  induction s with
  | nil => intro i j h; simp [indexOfAux] at h
  | cons c cs ih =>
    intro i j h
    rw [indexOfAux] at h
    by_cases hpre : pat.isPrefixOf (c :: cs) = true
    · rw [if_pos hpre] at h
      injection h with h1
      subst h1
      refine ⟨Nat.le_refl i, ?_, ?_⟩
      · simpa [Nat.sub_self] using hpre
      · intro k hk1 hk2; omega
    · rw [if_neg hpre] at h
      obtain ⟨hij, hpre2, hmin⟩ := ih h
      have hpreF : pat.isPrefixOf (c :: cs) = false := by
        revert hpre; cases pat.isPrefixOf (c :: cs) <;> simp
      refine ⟨by omega, ?_, ?_⟩
      · have hstep : (c :: cs).drop (j - i) = cs.drop (j - (i + 1)) := by
          have hj : j - i = (j - (i + 1)) + 1 := by omega
          rw [hj]; rfl
        rw [hstep]; exact hpre2
      · intro k hk1 hk2
        by_cases hk : k = i
        · subst hk
          simpa [Nat.sub_self] using hpreF
        · have hstep : (c :: cs).drop (k - i) = cs.drop (k - (i + 1)) := by
            have hj : k - i = (k - (i + 1)) + 1 := by omega
            rw [hj]; rfl
          rw [hstep]
          exact hmin k (by omega) hk2

/-- On `none`, `pat` (nonempty) occurs nowhere at or after index `i`. -/
lemma indexOfAux_none {pat : Chars} (hp : pat ≠ []) :
    ∀ {s : Chars} {i : Nat}, indexOfAux pat s i = none →
      ∀ k, i ≤ k → pat.isPrefixOf (s.drop (k - i)) = false := by
  intro s
  induction s with
  | nil =>
    intro i _ k _
    cases pat with
    | nil => exact absurd rfl hp
    | cons a b => simp [List.isPrefixOf]
  | cons c cs ih =>
    intro i h k hk
    rw [indexOfAux] at h
    by_cases hpre : pat.isPrefixOf (c :: cs) = true
    · rw [if_pos hpre] at h; exact absurd h (by simp)
    · rw [if_neg hpre] at h
      have hpreF : pat.isPrefixOf (c :: cs) = false := by
        revert hpre; cases pat.isPrefixOf (c :: cs) <;> simp
      by_cases hki : k = i
      · subst hki; simpa [Nat.sub_self] using hpreF
      · have hstep : (c :: cs).drop (k - i) = cs.drop (k - (i + 1)) := by
          have hj : k - i = (k - (i + 1)) + 1 := by omega
          rw [hj]; rfl
        rw [hstep]
        exact ih h k (by omega)

/-- `objGet` with a key absent from the `layout` slot is transparent to the
layout-name fallback. -/
lemma layoutNameOf_objSet_ne (md : List (Chars × Chars)) (k v : Chars)
    (hk : k ≠ str "layout") : layoutNameOf (objSet md k v) = layoutNameOf md := by
  unfold layoutNameOf
  rw [objGet_objSet, if_neg hk]

/-- Disk writes of the Doc1 build are the concatenation of the per-file disk
writes: files do not interfere with each other's page outputs. -/
lemma Doc1_foldl_disk (e : Chars → Bool) (m : Chars → Chars) (cwd : Chars) (L : LayoutMap) :
    ∀ (l : List (Chars × Chars)) (acc : Doc1.BuildOut),
      (l.foldl (Doc1.step e m cwd L) acc).disk
        = acc.disk ++ l.flatMap (fun f => (Doc1.processFile e m cwd L f).disk) := by
  intro l
  induction l with
  | nil => intro acc; simp
  | cons f t ih =>
    intro acc
    simp only [List.foldl_cons, List.flatMap_cons]
    rw [ih]
    simp [Doc1.step, List.append_assoc]

lemma Doc1_foldl_errs (e : Chars → Bool) (m : Chars → Chars) (cwd : Chars) (L : LayoutMap) :
    ∀ (l : List (Chars × Chars)) (acc : Doc1.BuildOut),
      (l.foldl (Doc1.step e m cwd L) acc).errs
        = acc.errs ++ l.flatMap (fun f => (Doc1.processFile e m cwd L f).errs) := by
  intro l
  induction l with
  | nil => intro acc; simp
  | cons f t ih =>
    intro acc
    simp only [List.foldl_cons, List.flatMap_cons]
    rw [ih]
    simp [Doc1.step, List.append_assoc]

lemma Doc1_build_disk (e : Chars → Bool) (m : Chars → Chars) (cwd : Chars) (L : LayoutMap)
    (files : List (Chars × Chars)) :
    (Doc1.build e m cwd L files).disk
      = (files.filter (fun f => hasFxExt f.1)).flatMap
          (fun f => (Doc1.processFile e m cwd L f).disk) := by
  unfold Doc1.build
  rw [Doc1_foldl_disk]
  rfl

lemma Doc1_build_errs (e : Chars → Bool) (m : Chars → Chars) (cwd : Chars) (L : LayoutMap)
    (files : List (Chars × Chars)) :
    (Doc1.build e m cwd L files).errs
      = (files.filter (fun f => hasFxExt f.1)).flatMap
          (fun f => (Doc1.processFile e m cwd L f).errs) := by
  unfold Doc1.build
  rw [Doc1_foldl_errs]
  rfl

/-- A page whose (possibly defaulted) layout name is not registered produces
no disk write, only the logged error, in the Doc1 build. -/
lemma Doc1_processFile_missing (e : Chars → Bool) (m : Chars → Chars) (cwd : Chars)
    (L : LayoutMap) (nm raw hdr bodyraw : Chars)
    (hsplit : splitDoc raw = some (hdr, bodyraw))
    (hlay : objGet L (layoutNameOf (parseMetadata hdr)) = none) :
    (Doc1.processFile e m cwd L (nm, raw)).disk = [] ∧
    (Doc1.processFile e m cwd L (nm, raw)).errs
      = [str "Layout missing: " ++ layoutNameOf (parseMetadata hdr)] := by
  have hln : layoutNameOf (objSet (parseMetadata hdr) (str "content")
      ((processImages e cwd (trim bodyraw)).html)) = layoutNameOf (parseMetadata hdr) := by
    apply layoutNameOf_objSet_ne
    intro hcon
    have : ("content".data : Chars) = "layout".data := hcon
    simp at this
  unfold Doc1.processFile
  simp only [hsplit]
  rw [hln, hlay]
  exact ⟨rfl, rfl⟩

/- ------------------------------------------------------------------------
   Claim theorems.
   ------------------------------------------------------------------------ -/

/-- C1 (counterexample to the claim as stated): in a build whose single
fragment minifies to the empty string, the concatenated fragment payload is
empty and the script hashes the fallback string `"fx"` instead of the
concatenation.  Instantiating the digest with the identity function, the
emitted key is `/__fx/vfx/empty`, while a digest of the (empty) concatenation
would produce the key `/__fx/v/empty`: the fingerprint is not a digest of the
payload concatenation in this case. -/
theorem c1_counterexample :
    (Doc2.fragmentStore (fun s => s) (fun _ => false) (fun s => s) (str "/proj")
        [(str "empty.fx", str "")]).map Prod.fst = [str "/__fx/vfx/empty"] ∧
    Doc2.fragmentPayload (fun _ => false) (fun s => s) (str "/proj")
        [(str "empty.fx", str "")] = [] ∧
    str "/__fx/vfx/empty"
      ≠ str "/__fx/v" ++ (fun s => s) (Doc2.fragmentPayload (fun _ => false) (fun s => s)
          (str "/proj") [(str "empty.fx", str "")]) ++ str "/empty" := by
  decide

/-- C1 (amended): every key inserted into the Doc2 fragment store has the form
`/__fx/v<fingerprint>/<name>` for some listed `.fx` fragment file, where the
fingerprint is the single digest `hash(payload || "fx")` of the concatenation,
in directory-listing order, of all minified fragment payloads (with the fixed
fallback seed `"fx"` when that concatenation is empty), computed from the
complete fragment list before any route key is formed; consequently all
fragments of one build share the same version prefix. -/
theorem c1_keys_versioned (hash : Chars → Chars) (e : Chars → Bool) (m : Chars → Chars)
    (cwd : Chars) (files : List (Chars × Chars)) (kv : Chars × Chars)
    (h : kv ∈ Doc2.fragmentStore hash e m cwd files) :
    Doc2.FX_VERSION hash e m cwd files
        = hash (if Doc2.fragmentPayload e m cwd files = [] then str "fx"
                else Doc2.fragmentPayload e m cwd files) ∧
    ∃ f, f ∈ files ∧ hasFxExt f.1 = true ∧
      kv.1 = str "/__fx/v" ++ Doc2.FX_VERSION hash e m cwd files ++ str "/"
               ++ replaceFirst f.1 (str ".fx") [] := by
  constructor
  · rfl
  · unfold Doc2.fragmentStore at h
    rcases foldl_objSet_mem (fun f => Doc2.fragKey hash e m cwd files f.1)
        (fun f => Doc2.fragHtml e m cwd f.2) (Doc2.fxFiles files) [] kv h with h0 | ⟨f, hf, hk⟩
    · simp at h0
    · obtain ⟨hmem, hfx⟩ := List.mem_filter.mp hf
      exact ⟨f, hmem, hfx, hk⟩

/-- C1 witness: the amended statement evaluated on a one-fragment build with
the identity digest. -/
theorem c1_keys_versioned_witness :
    ((str "/__fx/v<p>n</p>/nav", str "<p>n</p>") ∈
        Doc2.fragmentStore (fun s => s) (fun _ => false) (fun s => s) (str "/proj")
          [(str "nav.fx", str "<p>n</p>")]) ∧
    (Doc2.FX_VERSION (fun s => s) (fun _ => false) (fun s => s) (str "/proj")
          [(str "nav.fx", str "<p>n</p>")]
        = (fun s => s) (if Doc2.fragmentPayload (fun _ => false) (fun s => s) (str "/proj")
              [(str "nav.fx", str "<p>n</p>")] = [] then str "fx"
            else Doc2.fragmentPayload (fun _ => false) (fun s => s) (str "/proj")
              [(str "nav.fx", str "<p>n</p>")]) ∧
      ∃ f, f ∈ [(str "nav.fx", str "<p>n</p>")] ∧ hasFxExt f.1 = true ∧
        (str "/__fx/v<p>n</p>/nav", str "<p>n</p>").1
          = str "/__fx/v" ++ Doc2.FX_VERSION (fun s => s) (fun _ => false) (fun s => s)
              (str "/proj") [(str "nav.fx", str "<p>n</p>")] ++ str "/"
              ++ replaceFirst f.1 (str ".fx") []) :=
  ⟨by decide, c1_keys_versioned _ _ _ _ _ _ (by decide)⟩

/-- C2 (the claim is right, the code violates it): after the first derivation
pass rewrites the only marked element of the document
`<img src="/assets/a.png" data-opt alt="see data-opt docs">`, the marker
attribute is removed, yet the rewritten element still contains the substring
`data-opt` (inside the `alt` text) after its `src` attribute, so the
marker regex matches it again (`findAll` finds one match) and a second pass
rewrites — and corrupts — the already-processed element instead of leaving it
unchanged. -/
theorem c2_second_pass_rematches :
    (findAll ((processImages (fun p => p == str "/proj/src/assets/a.png") (str "/proj")
        (str "<img src=\"/assets/a.png\" data-opt alt=\"see data-opt docs\">")).html)).length
      = 1 ∧
    (processImages (fun p => p == str "/proj/src/assets/a.png") (str "/proj")
        ((processImages (fun p => p == str "/proj/src/assets/a.png") (str "/proj")
          (str "<img src=\"/assets/a.png\" data-opt alt=\"see data-opt docs\">")).html)).html
      ≠ (processImages (fun p => p == str "/proj/src/assets/a.png") (str "/proj")
          (str "<img src=\"/assets/a.png\" data-opt alt=\"see data-opt docs\">")).html := by
  decide

/-- C3 (counterexample to the claim as stated): for the raw document
`t------ b ------x`, which contains the delimiter twice, the parsed body is
`b` — the trimmed segment between the first and second delimiter — whereas
everything after the first delimiter is ` b ------x`; the body therefore
excludes more of the document than the header block. -/
theorem c3_counterexample :
    splitDoc (str "t------ b ------x") = some (str "t", str " b ") ∧
    trim (str " b ") = str "b" ∧
    (splitFirstSub fxDelim (str "t------ b ------x")).map Prod.snd
      = some (str " b ------x") ∧
    str "b" ≠ str " b ------x" ∧
    str "b" ≠ trim (str " b ------x") := by
  decide

/-- C3 (amended): a raw document containing the delimiter decomposes as
`header ++ delimiter ++ mid ++ rest` where the header holds no delimiter
occurrence, `mid` is the delimiter-free segment up to the next occurrence
(`rest` is empty or starts with the delimiter), the parsed body is `trim mid`
(so the header block is excluded, but so is any tail after a second delimiter
occurrence and surrounding whitespace), and the metadata map holds exactly the
regex-matched tag pairs of the header with the last duplicate's trimmed inner
text winning. -/
theorem c3_parse_page (raw : Chars) (h : containsSub fxDelim raw = true) :
    ∃ hdr mid rest,
      raw = hdr ++ fxDelim ++ mid ++ rest ∧
      containsSub fxDelim hdr = false ∧
      containsSub fxDelim mid = false ∧
      (rest = [] ∨ fxDelim.isPrefixOf rest = true) ∧
      splitDoc raw = some (hdr, mid) ∧
      (∀ k, objGet (parseMetadata hdr) k = lastTrimmed (scanMeta hdr) k) := by
  have hdelim : fxDelim ≠ [] := by decide
  obtain ⟨pq, hsf⟩ := Option.isSome_iff_exists.mp h
  obtain ⟨hdr, q⟩ := pq
  obtain ⟨hs, hnone⟩ := splitFirstSub_eq hdelim hsf
  cases hq2 : splitFirstSub fxDelim q with
  | none =>
    refine ⟨hdr, q, [], ?_, ?_, ?_, Or.inl rfl, ?_, ?_⟩
    · simpa using hs
    · simp [containsSub, hnone]
    · simp [containsSub, hq2]
    · simp [splitDoc, hsf, untilNext, hq2]
    · intro k; exact parseMetadata_lastWins hdr k
  | some pq2 =>
    obtain ⟨mid, r2⟩ := pq2
    obtain ⟨hs2, hnone2⟩ := splitFirstSub_eq hdelim hq2
    refine ⟨hdr, mid, fxDelim ++ r2, ?_, ?_, ?_, Or.inr ?_, ?_, ?_⟩
    · rw [hs, hs2]; simp [List.append_assoc]
    · simp [containsSub, hnone]
    · simp [containsSub, hnone2]
    · exact List.isPrefixOf_iff_prefix.mpr (List.prefix_append _ _)
    · simp [splitDoc, hsf, untilNext, hq2]
    · intro k; exact parseMetadata_lastWins hdr k

/-- C3 witness: the amended statement evaluated on a concrete page document. -/
theorem c3_parse_page_witness :
    containsSub fxDelim (str "<title>T</title>------hello") = true ∧
    (∃ hdr mid rest,
      str "<title>T</title>------hello" = hdr ++ fxDelim ++ mid ++ rest ∧
      containsSub fxDelim hdr = false ∧
      containsSub fxDelim mid = false ∧
      (rest = [] ∨ fxDelim.isPrefixOf rest = true) ∧
      splitDoc (str "<title>T</title>------hello") = some (hdr, mid) ∧
      (∀ k, objGet (parseMetadata hdr) k = lastTrimmed (scanMeta hdr) k)) :=
  ⟨by decide, c3_parse_page _ (by decide)⟩

/-- C4 (counterexample to the claim as stated): processing the delimiter-free
document ` <p>hi</p> ` in the part_000 build (with a registered `base`
layout), the page body is the trimmed text `<p>hi</p>` — not the entire text —
and the page is still pushed through the default layout for the disk artifact
(the disk write contains the layout wrapper), contradicting both "the entire
text becomes the body" and "no layout is applied". -/
theorem c4_counterexample :
    (Part000.processPage (fun _ => false) (fun s => s) (str "/proj")
        [(str "base", fun md => str "<html>" ++ (objGet md (str "body")).getD [] ++ str "</html>")]
        (str "p.fx", str " <p>hi</p> ")).edge = [(str "/p", str "<p>hi</p>")] ∧
    str "<p>hi</p>" ≠ str " <p>hi</p> " ∧
    (Part000.processPage (fun _ => false) (fun s => s) (str "/proj")
        [(str "base", fun md => str "<html>" ++ (objGet md (str "body")).getD [] ++ str "</html>")]
        (str "p.fx", str " <p>hi</p> ")).disk
      = [(str "p.html", str "<html><p>hi</p></html>")] := by
  exact ⟨rfl, by decide, rfl⟩

/-- C4 (amended): for a delimiter-free raw document, the metadata map is
empty and the body is the trimmed entire text.  In the part_000 build the
file is warned about but still flows through the default `base` layout: the
edge store receives the layout-free minified body while the disk page is the
minified layout output.  Only the first `src/index.js` build script treats
such a file as a pure fragment: it emits the same edge entry, writes nothing
to disk and never consults the layout table. -/
theorem c4_no_delimiter (raw : Chars) (e : Chars → Bool) (m : Chars → Chars) (cwd : Chars)
    (f : List (Chars × Chars) → Chars)
    (h : containsSub fxDelim raw = false) :
    Part000.processPage e m cwd [(str "base", f)] (str "p.fx", raw)
      = { edge := [(str "/p", m (processImages e cwd (trim raw)).html)],
          disk := [(str "p.html",
            m (processImages e cwd
                (f [(str "body", (processImages e cwd (trim raw)).html)])).html)],
          errs := [],
          sepWarns := [str "missing separator: p.fx"] } ∧
    Doc1.processFile e m cwd [] (str "p.fx", raw)
      = { edge := [(str "/p", m (processImages e cwd (trim raw)).html)],
          disk := [], errs := [] } := by
  have hs : splitDoc raw = none := by
    unfold splitDoc
    cases hx : splitFirstSub fxDelim raw with
    | none => rfl
    | some pq => rw [containsSub, hx] at h; simp at h
  constructor
  · simp only [Part000.processPage, hs]
    rfl
  · simp only [Doc1.processFile, hs]
    rfl

/-- C4 witness: the amended statement evaluated on a concrete fragment file. -/
theorem c4_no_delimiter_witness :
    containsSub fxDelim (str " <p>hi</p> ") = false ∧
    (Part000.processPage (fun _ => false) (fun s => s) (str "/proj")
        [(str "base", fun _ => str "LAYOUT")] (str "p.fx", str " <p>hi</p> ")
      = { edge := [(str "/p", str "<p>hi</p>")],
          disk := [(str "p.html", str "LAYOUT")],
          errs := [],
          sepWarns := [str "missing separator: p.fx"] } ∧
     Doc1.processFile (fun _ => false) (fun s => s) (str "/proj") []
        (str "p.fx", str " <p>hi</p> ")
      = { edge := [(str "/p", str "<p>hi</p>")], disk := [], errs := [] }) :=
  ⟨by decide, c4_no_delimiter _ _ _ _ _ (by decide)⟩

/-- C5 (counterexample to the claim as stated): the second build script's
edge worker does not look up the request path.  For the fragment map holding
only the key `/__fx/vdeadbeef/nav`, the request whose URL is
`https://example.com/page?go=/__fx/vdeadbeef/nav` — whose path `/page` is not
a stored key — is answered with the stored fragment, because the worker scans
the whole URL (query string included) for `/__fx/` and looks up the URL
suffix from there; it is not passed through to the origin. -/
theorem c5_counterexample :
    Doc2.edgeRespond [(str "/__fx/vdeadbeef/nav", str "<nav>ok</nav>")]
        (str "https://example.com/page?go=/__fx/vdeadbeef/nav")
      = some ⟨str "<nav>ok</nav>", Doc2.edgeContentType, Doc2.edgeCacheControl⟩ ∧
    objGet [(str "/__fx/vdeadbeef/nav", str "<nav>ok</nav>")] (str "/page") = none := by
  decide

/-- C5 (amended): the emitted worker of the second build script synthesizes a
response exactly when the request URL contains `/__fx/` at some position ≥ 8;
it takes the first such position, looks the URL's suffix from that position
(query string included) up in the versioned fragment map by exact string
match (no prefix matching and no trailing-slash normalization on that
suffix), and on a stored entry answers with the stored HTML under content
type `text/html;charset=utf-8` and cache control
`public,max-age=31536000,immutable`; in every other case the request is
passed through to the origin (`none`). -/
theorem c5_dispatch (P : List (Chars × Chars)) (u : Chars) (r : Doc2.EdgeResp) :
    Doc2.edgeRespond P u = some r ↔
      ∃ i, 8 ≤ i ∧ isPrefixAt (str "/__fx/") u i ∧
        (∀ j, 8 ≤ j → j < i → ¬ isPrefixAt (str "/__fx/") u j) ∧
        objGet P (u.drop i) = some r.body ∧
        r.contentType = Doc2.edgeContentType ∧ r.cacheControl = Doc2.edgeCacheControl := by
  have hdd : ∀ n : Nat, 8 ≤ n → (u.drop 8).drop (n - 8) = u.drop n := by
    intro n hn
    rw [List.drop_drop]
    congr 1
    omega
  constructor
  · intro h
    cases hidx : indexOfAux (str "/__fx/") (u.drop 8) 8 with
    | none =>
      have hnone : Doc2.edgeRespond P u = none := by
        unfold Doc2.edgeRespond indexOfFrom
        rw [hidx]
      rw [hnone] at h
      exact absurd h (by simp)
    | some i =>
      obtain ⟨hi8, hpre, hmin⟩ := indexOfAux_some hidx
      have hER : Doc2.edgeRespond P u
          = (match objGet P (u.drop i) with
             | none => none
             | some hb =>
               some (⟨hb, Doc2.edgeContentType, Doc2.edgeCacheControl⟩ : Doc2.EdgeResp)) := by
        unfold Doc2.edgeRespond indexOfFrom
        rw [hidx]
      rw [hER] at h
      cases hget : objGet P (u.drop i) with
      | none => rw [hget] at h; exact absurd h (by simp)
      | some hb =>
        rw [hget] at h
        have h' : some (⟨hb, Doc2.edgeContentType, Doc2.edgeCacheControl⟩ : Doc2.EdgeResp)
            = some r := h
        have hr : (⟨hb, Doc2.edgeContentType, Doc2.edgeCacheControl⟩ : Doc2.EdgeResp) = r := by
          injection h'
        refine ⟨i, hi8, ?_, ?_, ?_, ?_, ?_⟩
        · unfold isPrefixAt
          rw [← hdd i hi8]
          exact hpre
        · intro j hj8 hji
          unfold isPrefixAt
          rw [← hdd j hj8, hmin j hj8 hji]
          simp
        · rw [hget, ← hr]
        · rw [← hr]
        · rw [← hr]
  · intro h
    obtain ⟨i, hi8, hpre, hmin, hget, hct, hcc⟩ := h
    have hidx : indexOfAux (str "/__fx/") (u.drop 8) 8 = some i := by
      cases hidx : indexOfAux (str "/__fx/") (u.drop 8) 8 with
      | none =>
        have hF := indexOfAux_none (by decide) hidx i hi8
        rw [hdd i hi8] at hF
        unfold isPrefixAt at hpre
        rw [hpre] at hF
        exact absurd hF (by simp)
      | some i2 =>
        obtain ⟨hi28, hpre2, hmin2⟩ := indexOfAux_some hidx
        rcases Nat.lt_trichotomy i2 i with hlt | heq | hgt
        · exfalso
          apply hmin i2 hi28 hlt
          unfold isPrefixAt
          rw [← hdd i2 hi28]
          exact hpre2
        · rw [heq]
        · exfalso
          have hF := hmin2 i hi8 hgt
          rw [hdd i hi8] at hF
          unfold isPrefixAt at hpre
          rw [hpre] at hF
          exact absurd hF (by simp)
    have hER : Doc2.edgeRespond P u
        = (match objGet P (u.drop i) with
           | none => none
           | some hb =>
             some (⟨hb, Doc2.edgeContentType, Doc2.edgeCacheControl⟩ : Doc2.EdgeResp)) := by
      unfold Doc2.edgeRespond indexOfFrom
      rw [hidx]
    rw [hER, hget]
    cases r with
    | mk b ct cc =>
      simp only at hct hcc
      rw [hct, hcc]

/-- C6 (confirmed): on a filesystem containing exactly the source image
`/proj/src/assets/hero.png` (so the resolved source exists and no variant
output pre-exists), an element marked `data-opt="300,600x400"` derives
exactly two files — a width-300 aspect-preserving resize and a 600×400
center-cropped cover resize — and the rewritten element's `srcset` holds
exactly the two descriptors `... 300w` and `... 600w`. -/
theorem c6_explicit_sizes (e : Chars → Bool)
    (h : ∀ p, e p = (p == str "/proj/src/assets/hero.png")) :
    processImages e (str "/proj")
        (str "<img src=\"/assets/hero.png\" data-opt=\"300,600x400\">")
      = { html := str "<img src=\"/assets/hero.png\" srcset=\"/assets/hero-300.webp 300w, /assets/hero-600x400.webp 600w\" >",
          files := [⟨str "/proj/public/assets/hero-300.webp", some 300, none, false⟩,
                    ⟨str "/proj/public/assets/hero-600x400.webp", some 600, some 400, true⟩],
          warns := [] } := by
  have he : e = fun p => p == str "/proj/src/assets/hero.png" := funext h
  subst he
  decide

/-- C6 witness: the theorem applied to the concrete filesystem predicate. -/
theorem c6_explicit_sizes_witness :
    (∀ p : Chars, (fun q => q == str "/proj/src/assets/hero.png") p
        = (p == str "/proj/src/assets/hero.png")) ∧
    processImages (fun q => q == str "/proj/src/assets/hero.png") (str "/proj")
        (str "<img src=\"/assets/hero.png\" data-opt=\"300,600x400\">")
      = { html := str "<img src=\"/assets/hero.png\" srcset=\"/assets/hero-300.webp 300w, /assets/hero-600x400.webp 600w\" >",
          files := [⟨str "/proj/public/assets/hero-300.webp", some 300, none, false⟩,
                    ⟨str "/proj/public/assets/hero-600x400.webp", some 600, some 400, true⟩],
          warns := [] } :=
  ⟨fun p => rfl, c6_explicit_sizes _ (fun p => rfl)⟩

/-- C7 (counterexample to the claim as stated): the second build script of
`src/index.js` imports the layout module with no existence check, so a page
naming an unregistered layout aborts the whole pages build (modelled as
`Except.error`): the sibling page `b.fx` after it produces no output at all,
instead of the page being skipped and the build continuing. -/
theorem c7_counterexample :
    Doc2.pagesBuild (fun _ => false) (fun s => s) (str "/proj") [] (str "v1")
        [(str "a.fx", str "t------x"), (str "b.fx", str "t------y")]
      = Except.error (str "Cannot find layout module base") := by
  rfl

/-- C7 (amended): in the require-based builds, which check for the layout file
before loading it (the first `src/index.js` script, modelled here, and
part_000), a page whose metadata names an unregistered layout is skipped with
a logged `Layout missing` error and the build continues: the disk writes of
the whole build equal those of the build without that page, and the error log
is exactly the sibling pages' logs with the missing-layout message inserted.
In the import-based second script a missing layout instead aborts the build
(see the counterexample). -/
theorem c7_missing_layout (e : Chars → Bool) (m : Chars → Chars) (cwd : Chars) (L : LayoutMap)
    (xs ys : List (Chars × Chars)) (nm raw hdr bodyraw : Chars)
    (hfx : hasFxExt nm = true)
    (hsplit : splitDoc raw = some (hdr, bodyraw))
    (hlay : objGet L (layoutNameOf (parseMetadata hdr)) = none) :
    (Doc1.build e m cwd L (xs ++ (nm, raw) :: ys)).disk
        = (Doc1.build e m cwd L (xs ++ ys)).disk ∧
    (Doc1.build e m cwd L (xs ++ (nm, raw) :: ys)).errs
        = (Doc1.build e m cwd L xs).errs
          ++ (str "Layout missing: " ++ layoutNameOf (parseMetadata hdr))
          :: (Doc1.build e m cwd L ys).errs := by
  obtain ⟨hd, he⟩ := Doc1_processFile_missing e m cwd L nm raw hdr bodyraw hsplit hlay
  constructor
  · rw [Doc1_build_disk, Doc1_build_disk]
    rw [List.filter_append, List.filter_append, List.filter_cons]
    simp only [hfx, if_true]
    rw [List.flatMap_append, List.flatMap_append, List.flatMap_cons]
    rw [hd]
    simp
  · rw [Doc1_build_errs, Doc1_build_errs, Doc1_build_errs]
    rw [List.filter_append, List.filter_cons]
    simp only [hfx, if_true]
    rw [List.flatMap_append, List.flatMap_cons]
    rw [he]
    simp

/-- C7 witness: the amended statement evaluated on a three-page build whose
middle page (and, with the empty layout table, every page) lacks a layout. -/
theorem c7_missing_layout_witness :
    hasFxExt (str "c.fx") = true ∧
    splitDoc (str "t------z") = some (str "t", str "z") ∧
    objGet ([] : LayoutMap) (layoutNameOf (parseMetadata (str "t"))) = none ∧
    ((Doc1.build (fun _ => false) (fun s => s) (str "/proj") []
        ([(str "a.fx", str "t------x")] ++ (str "c.fx", str "t------z")
          :: [(str "b.fx", str "t------y")])).disk
      = (Doc1.build (fun _ => false) (fun s => s) (str "/proj") []
        ([(str "a.fx", str "t------x")] ++ [(str "b.fx", str "t------y")])).disk ∧
    (Doc1.build (fun _ => false) (fun s => s) (str "/proj") []
        ([(str "a.fx", str "t------x")] ++ (str "c.fx", str "t------z")
          :: [(str "b.fx", str "t------y")])).errs
      = (Doc1.build (fun _ => false) (fun s => s) (str "/proj") []
          [(str "a.fx", str "t------x")]).errs
        ++ (str "Layout missing: " ++ layoutNameOf (parseMetadata (str "t")))
        :: (Doc1.build (fun _ => false) (fun s => s) (str "/proj") []
          [(str "b.fx", str "t------y")]).errs) :=
  ⟨by decide, by decide, rfl,
    c7_missing_layout (fun _ => false) (fun s => s) (str "/proj") []
      [(str "a.fx", str "t------x")] [(str "b.fx", str "t------y")]
      (str "c.fx") (str "t------z") (str "t") (str "z")
      (by decide) (by decide) rfl⟩

/-- C8 (counterexample to the claim as stated): a page whose body is empty
(`x.fx` = `t------`) contributes the empty-string edge entry under `/x`; a
fragment also named `x.fx` then collides with that present key, yet no
collision warning is logged — the truthiness test `if (edgeStore[edgeKey])`
treats the empty stored entry as absent — while the fragment still overwrites
the entry. -/
theorem c8_counterexample :
    (Part000.build (fun _ => false) (fun s => s) (str "/proj") []
        [(str "x.fx", str "t------")] []).edge = [(str "/x", [])] ∧
    (Part000.build (fun _ => false) (fun s => s) (str "/proj") []
        [(str "x.fx", str "t------")] [(str "x.fx", str "hello")]).warns = [] ∧
    objGet (Part000.build (fun _ => false) (fun s => s) (str "/proj") []
        [(str "x.fx", str "t------")] [(str "x.fx", str "hello")]).edge (str "/x")
      = some (str "hello") := by
  decide

/-- C8 (amended): when a fragment's route key equals a key already present in
the edge routing table, the part_000 build completes, the later-written
fragment entry is the one retrievable under that key, and the collision
warning is logged exactly when the pre-existing entry is non-empty (an empty
stored page body is overwritten silently, by JS truthiness). -/
theorem c8_collision_later_wins (e : Chars → Bool) (m : Chars → Chars) (cwd : Chars)
    (rawF : Chars) :
    (Part000.build e m cwd [] [(str "x.fx", str "t------b")] [(str "x.fx", rawF)]).edge
        = [(str "/x", m (processImages e cwd (trim rawF)).html)] ∧
    objGet (Part000.build e m cwd [] [(str "x.fx", str "t------b")]
        [(str "x.fx", rawF)]).edge (str "/x")
      = some (m (processImages e cwd (trim rawF)).html) ∧
    (Part000.build e m cwd [] [(str "x.fx", str "t------b")] [(str "x.fx", rawF)]).warns
        = (if m (str "b") = [] then [] else [Part000.collisionMsg (str "x")]) := by
  refine ⟨rfl, rfl, rfl⟩

/-- C9 (confirmed): for the document holding one marked element whose source
is missing and one whose source exists, the missing-source element is left
textually unmodified, a warning naming the resolved path is emitted, no
variant files are derived for it, and the rest of the document is still
processed (the second element is rewritten with its three default variants). -/
theorem c9_missing_source (e : Chars → Bool)
    (h : ∀ p, e p = (p == str "/proj/src/assets/ok.png")) :
    processImages e (str "/proj")
        (str "<img src=\"/assets/missing.png\" data-opt alt=\"x\"><img src=\"/assets/ok.png\" data-opt>")
      = { html := str "<img src=\"/assets/missing.png\" data-opt alt=\"x\"><img src=\"/assets/ok.png\" srcset=\"/assets/ok-480.webp 480w, /assets/ok-800.webp 800w, /assets/ok-1200.webp 1200w\" >",
          files := [⟨str "/proj/public/assets/ok-480.webp", some 480, none, false⟩,
                    ⟨str "/proj/public/assets/ok-800.webp", some 800, none, false⟩,
                    ⟨str "/proj/public/assets/ok-1200.webp", some 1200, none, false⟩],
          warns := [str "/proj/src/assets/missing.png"] } := by
  have he : e = fun p => p == str "/proj/src/assets/ok.png" := funext h
  subst he
  decide

/-- C9 witness: the theorem applied to the concrete filesystem predicate. -/
theorem c9_missing_source_witness :
    (∀ p : Chars, (fun q => q == str "/proj/src/assets/ok.png") p
        = (p == str "/proj/src/assets/ok.png")) ∧
    processImages (fun q => q == str "/proj/src/assets/ok.png") (str "/proj")
        (str "<img src=\"/assets/missing.png\" data-opt alt=\"x\"><img src=\"/assets/ok.png\" data-opt>")
      = { html := str "<img src=\"/assets/missing.png\" data-opt alt=\"x\"><img src=\"/assets/ok.png\" srcset=\"/assets/ok-480.webp 480w, /assets/ok-800.webp 800w, /assets/ok-1200.webp 1200w\" >",
          files := [⟨str "/proj/public/assets/ok-480.webp", some 480, none, false⟩,
                    ⟨str "/proj/public/assets/ok-800.webp", some 800, none, false⟩,
                    ⟨str "/proj/public/assets/ok-1200.webp", some 1200, none, false⟩],
          warns := [str "/proj/src/assets/missing.png"] } :=
  ⟨fun p => rfl, c9_missing_source _ (fun p => rfl)⟩

/-- C10 (confirmed): `home.fx` and `index.fx` both receive the edge key `/`
and both write `index.html` to disk; in a build containing both, the
later-processed `index.fx` silently overwrites `home.fx` in the edge store
(the final table holds a single `/` entry with the later value), the last
disk write to `index.html` is the later page, and no warning of any kind is
emitted for this collision. -/
theorem c10_home_index (e : Chars → Bool) (m : Chars → Chars) (cwd : Chars)
    (f : List (Chars × Chars) → Chars) :
    (Part000.processPage e m cwd [(str "base", f)]
        (str "home.fx", str "t------<h1>A</h1>")).edge
      = [(str "/", m (str "<h1>A</h1>"))] ∧
    (Part000.processPage e m cwd [(str "base", f)]
        (str "index.fx", str "t------<h1>B</h1>")).edge
      = [(str "/", m (str "<h1>B</h1>"))] ∧
    (Part000.processPage e m cwd [(str "base", f)]
        (str "home.fx", str "t------<h1>A</h1>")).disk
      = [(str "index.html",
          m (processImages e cwd (f [(str "body", str "<h1>A</h1>")])).html)] ∧
    (Part000.processPage e m cwd [(str "base", f)]
        (str "index.fx", str "t------<h1>B</h1>")).disk
      = [(str "index.html",
          m (processImages e cwd (f [(str "body", str "<h1>B</h1>")])).html)] ∧
    Part000.build e m cwd [(str "base", f)]
        [(str "home.fx", str "t------<h1>A</h1>"), (str "index.fx", str "t------<h1>B</h1>")] []
      = { edge := [(str "/", m (str "<h1>B</h1>"))],
          disk := [(str "index.html",
                    m (processImages e cwd (f [(str "body", str "<h1>A</h1>")])).html),
                   (str "index.html",
                    m (processImages e cwd (f [(str "body", str "<h1>B</h1>")])).html)],
          errs := [], warns := [], sepWarns := [] } ∧
    lookupLast (Part000.build e m cwd [(str "base", f)]
        [(str "home.fx", str "t------<h1>A</h1>"), (str "index.fx", str "t------<h1>B</h1>")]
        []).disk (str "index.html")
      = some (m (processImages e cwd (f [(str "body", str "<h1>B</h1>")])).html) ∧
    Doc1.build e m cwd [(str "base", f)]
        [(str "home.fx", str "t------<h1>A</h1>"), (str "index.fx", str "t------<h1>B</h1>")]
      = { edge := [(str "/", m (str "<h1>B</h1>"))],
          disk := [(str "index.html",
                    m (processImages e cwd (f [(str "content", str "<h1>A</h1>")])).html),
                   (str "index.html",
                    m (processImages e cwd (f [(str "content", str "<h1>B</h1>")])).html)],
          errs := [] } ∧
    lookupLast (Doc1.build e m cwd [(str "base", f)]
        [(str "home.fx", str "t------<h1>A</h1>"), (str "index.fx", str "t------<h1>B</h1>")]).disk
        (str "index.html")
      = some (m (processImages e cwd (f [(str "content", str "<h1>B</h1>")])).html) := by
  refine ⟨rfl, rfl, rfl, rfl, rfl, rfl, rfl, rfl⟩
